import Mathlib

/-!
Verification of the distsql aggregator visitors
(`pkg/sql/distsql_aggregator_visitors.go`): the extraction of
`AggregatorSpec_Expr` entries from render expressions (`extractAggExprs`)
and the post-aggregation rewrite (`extractPostAggrExprs`).

The expression-tree model (the `parser` package) and the
`distsqlrun.AggregatorSpec` protobuf types are external collaborators of
the file under verification; they are modelled from the specification's
data model. The two visitors and the two exported functions are
translated directly from the Go source.
-/

namespace DistSQLAgg

/-- Modelled from the spec: the `FunctionKind` enumeration
(`distsqlrun.AggregatorSpec_Func`) of supported aggregate functions plus
the pass-through sentinel `IDENT`. In the protobuf enumeration `IDENT`
is the zero value, the value a Go map lookup yields on a missing key. -/
inductive AggregatorSpec_Func where
  | IDENT
  | AVG
  | BOOL_AND
  | BOOL_OR
  | CONCAT_AGG
  | COUNT
  | MAX
  | MIN
  | STDDEV
  | SUM
  | VARIANCE
deriving DecidableEq, Repr

/-- The enumeration's zero value (protobuf zero value, the result of a
missed Go map lookup cast to the enumeration). -/
def AggregatorSpec_Func.zero : AggregatorSpec_Func := .IDENT

/-- Modelled from the spec: the Function-Kind Registry, a static mapping
from canonical uppercase aggregate-function name to `FunctionKind`
(`distsqlrun.AggregatorSpec_Func_value`). The `IDENT` sentinel is not
name-addressable. A name outside the supported set is absent. -/
def AggregatorSpec_Func_value : String → Option AggregatorSpec_Func
  | "AVG" => some .AVG
  | "BOOL_AND" => some .BOOL_AND
  | "BOOL_OR" => some .BOOL_OR
  | "CONCAT_AGG" => some .CONCAT_AGG
  | "COUNT" => some .COUNT
  | "MAX" => some .MAX
  | "MIN" => some .MIN
  | "STDDEV" => some .STDDEV
  | "SUM" => some .SUM
  | "VARIANCE" => some .VARIANCE
  | _ => none

/-- Modelled from the spec: Go `strings.ToUpper` as used by the
registry lookup — upper-case every character of the name. -/
def strToUpper (s : String) : String := ⟨s.data.map Char.toUpper⟩

/-- The registry lookup as performed at
`distsql_aggregator_visitors.go:56-60`: upper-case the function name,
look it up in `AggregatorSpec_Func_value`; a missing key yields the Go
map's zero value, cast to the enumeration (its zero value). -/
def lookupFunc (name : String) : AggregatorSpec_Func :=
  (AggregatorSpec_Func_value (strToUpper name)).getD AggregatorSpec_Func.zero

/-- Modelled from the spec: one emitted entry per aggregate marker
(`distsqlrun.AggregatorSpec_Expr`), with Go zero values as field
defaults. -/
structure AggregatorSpec_Expr where
  Func : AggregatorSpec_Func := .IDENT
  Distinct : Bool := false
  ColIdx : Nat := 0
deriving DecidableEq, Repr

/-- Modelled from the spec: the expression-tree node (`parser.Expr`),
a closed tagged-variant type. `aggregateMarker` is the
`*aggregateFuncHolder` wrapper; `ordinalReference` is the node produced
by `parser.NewOrdinalReference` (a `*parser.IndexedVar` denoting the
position-th column of the aggregator's output stream); `funcCall` is
`*parser.FuncExpr` with its distinct flag (`f.Type == DistinctFuncType`). -/
inductive Expr where
  | lit (value : Int)
  | columnRef (index : Nat)
  | funcCall (name : String) (args : List Expr) (distinct : Bool)
  | binOp (op : String) (left : Expr) (right : Expr)
  | aggregateMarker (inner : Expr)
  | ordinalReference (position : Nat)

/-- Whether an expression node is a `funcCall` (`*parser.FuncExpr`). -/
def isFuncCall : Expr → Bool
  | .funcCall _ _ _ => true
  | _ => false

/-- Whether an expression is exactly a bare ordinal reference — the
type test `result.(*parser.IndexedVar)` performed at
`distsql_aggregator_visitors.go:181` (the rewriter's output nodes are
the `IndexedVar`s built by `parser.NewOrdinalReference`). -/
def isOrdinalRef : Expr → Bool
  | .ordinalReference _ => true
  | _ => false

/-- The `AggregatorSpec_Expr` built by `aggExprVisitor.VisitPre`
(`distsql_aggregator_visitors.go:46-62`) from a marker's inner
expression: a `FuncExpr` inner yields the registry lookup of its name
and the call's distinct flag; any other inner yields `IDENT` (distinct
left at its zero value `false`). -/
def markerSpec : Expr → AggregatorSpec_Expr
  | .funcCall name _ distinct => { Func := lookupFunc name, Distinct := distinct }
  | _ => { Func := .IDENT, Distinct := false }

/-- `aggExprVisitor.VisitPre` (`distsql_aggregator_visitors.go:40-65`):
on a non-marker expression recurse (`true`) with the accumulated specs
unchanged; on an `aggregateFuncHolder` append the equivalent
`AggregatorSpec_Expr` and stop descending (`false`). -/
def aggVisitPre (exprs : List AggregatorSpec_Expr) (e : Expr) :
    Bool × List AggregatorSpec_Expr :=
  match e with
  | .aggregateMarker inner =>
    match inner with
    | .funcCall name _ distinct =>
      (false, exprs ++ [{ Func := lookupFunc name, Distinct := distinct }])
    | _ => (false, exprs ++ [{ Func := .IDENT, Distinct := false }])
  | _ => (true, exprs)

mutual

/-- Modelled from the spec: `parser.WalkExprConst` specialised to
`aggExprVisitor` — pre-order traversal whose `VisitPre` boolean controls
descent into children; an `aggregateFuncHolder` is a leaf of the walk
(its `Walk` method does not descend into the held expression), and
`aggExprVisitor.VisitPost` is the identity. The visitor state is the
accumulated spec list. -/
def walkExprConst (st : List AggregatorSpec_Expr) (e : Expr) :
    List AggregatorSpec_Expr :=
  let r := aggVisitPre st e
  if r.1 then
    match e with
    | .funcCall _ args _ => walkExprConstList r.2 args
    | .binOp _ l rc => walkExprConst (walkExprConst r.2 l) rc
    | _ => r.2
  else r.2

/-- Walk of a child list, left to right. -/
def walkExprConstList (st : List AggregatorSpec_Expr) (es : List Expr) :
    List AggregatorSpec_Expr :=
  match es with
  | [] => st
  | e :: rest => walkExprConstList (walkExprConst st e) rest

end

/-- The `aggExprVisitor` state: the accumulated specs
(`distsql_aggregator_visitors.go:30-32`). Go's zero value is the nil
slice. -/
structure aggExprVisitor where
  exprs : List AggregatorSpec_Expr := []

/-- `aggExprVisitor.extract` (`distsql_aggregator_visitors.go:71-74`):
a value receiver, so the walk appends to a copy of the visitor and the
receiver itself is left unchanged. -/
def aggExprVisitor.extract (v : aggExprVisitor) (typedExpr : Expr) :
    List AggregatorSpec_Expr :=
  walkExprConst v.exprs typedExpr

/-- The `ColIdx`-stamping loop of `extractAggExprs`
(`distsql_aggregator_visitors.go:108-110`): the i-th entry of the
concatenated list receives `ColIdx = i`. -/
def stampColIdx (start : Nat) : List AggregatorSpec_Expr → List AggregatorSpec_Expr
  | [] => []
  | a :: rest => { a with ColIdx := start } :: stampColIdx (start + 1) rest

/-- `extractAggExprs` (`distsql_aggregator_visitors.go:101-112`): one
visitor value is created, each render expression is extracted (the value
receiver keeps `v.exprs` empty across iterations) and the results
concatenated; then `ColIdx` is stamped sequentially over the
concatenated list. -/
def extractAggExprs (render : List Expr) : List AggregatorSpec_Expr :=
  let v : aggExprVisitor := {}
  let aggExprs := render.foldl (fun acc expr => acc ++ v.extract expr) []
  stampColIdx 0 aggExprs

/-- `postAggExprVisitor.VisitPost`
(`distsql_aggregator_visitors.go:134-142`): an `aggregateFuncHolder` is
substituted by `parser.NewOrdinalReference(v.count)` and the counter is
incremented; any other expression is left as is. The counter is the
visitor's state. -/
def postAggVisitPost (count : Nat) (e : Expr) : Nat × Expr :=
  match e with
  | .aggregateMarker _ => (count + 1, .ordinalReference count)
  | _ => (count, e)

mutual

/-- Modelled from the spec: `parser.WalkExpr` specialised to
`postAggExprVisitor` — bottom-up rebuilding traversal. Its `VisitPre`
always recurses (`distsql_aggregator_visitors.go:120-122`), children are
rewritten before the parent is rebuilt, and `VisitPost` is applied to the
rebuilt node. An `aggregateFuncHolder` is a leaf of the walk (its `Walk`
method does not descend into the held expression), so the marker's inner
subtree is discarded once `VisitPost` substitutes the ordinal reference. -/
def walkExpr (count : Nat) (e : Expr) : Nat × Expr :=
  match e with
  | .funcCall name args distinct =>
    let r := walkExprList count args
    postAggVisitPost r.1 (.funcCall name r.2 distinct)
  | .binOp op l rc =>
    let rl := walkExpr count l
    let rr := walkExpr rl.1 rc
    postAggVisitPost rr.1 (.binOp op rl.2 rr.2)
  | e => postAggVisitPost count e

/-- Rewrite of a child list, left to right, threading the counter. -/
def walkExprList (count : Nat) (es : List Expr) : Nat × List Expr :=
  match es with
  | [] => (count, [])
  | e :: rest =>
    let r := walkExpr count e
    let rs := walkExprList r.1 rest
    (rs.1, r.2 :: rs.2)

end

/-- `extractPostAggrExprs` (`distsql_aggregator_visitors.go:175-187`):
one `postAggExprVisitor` (counter starting at `0`) is threaded through
all render expressions; each rewritten result is appended to
`evalExprs`, and `needEval` is set to `true` whenever a result is not a
bare `*parser.IndexedVar` (ordinal reference). -/
def extractPostAggrExprs (render : List Expr) : List Expr × Bool :=
  let step := fun (st : Nat × List Expr × Bool) (expr : Expr) =>
    let r := walkExpr st.1 expr
    let needEval := if isOrdinalRef r.2 then st.2.2 else true
    (r.1, st.2.1 ++ [r.2], needEval)
  let res := render.foldl step (0, [], false)
  (res.2.1, res.2.2)

/-! Reference definitions, stated from the specification's words, used
to express the discovery-order and cross-consistency claims. -/

mutual

/-- The inner expressions of the aggregate markers of an expression, in
left-to-right discovery order, treating a marker as a leaf (markers
nested inside a marker's subtree are not discovered). -/
def markerInnersExpr : Expr → List Expr
  | .aggregateMarker inner => [inner]
  | .funcCall _ args _ => markerInnersList args
  | .binOp _ l r => markerInnersExpr l ++ markerInnersExpr r
  | _ => []

/-- Discovered marker inners of an expression list, left to right. -/
def markerInnersList : List Expr → List Expr
  | [] => []
  | e :: rest => markerInnersExpr e ++ markerInnersList rest

end

mutual

/-- The total number of `aggregateMarker` nodes anywhere in an
expression, including inside other markers' subtrees. -/
def totalMarkersExpr : Expr → Nat
  | .aggregateMarker inner => 1 + totalMarkersExpr inner
  | .funcCall _ args _ => totalMarkersList args
  | .binOp _ l r => totalMarkersExpr l + totalMarkersExpr r
  | _ => 0

/-- Total markers of an expression list. -/
def totalMarkersList : List Expr → Nat
  | [] => 0
  | e :: rest => totalMarkersExpr e + totalMarkersList rest

end

mutual

/-- The no-nested-markers precondition: no `aggregateMarker` contains a
further `aggregateMarker` anywhere in its subtree. -/
def noNestedExpr : Expr → Bool
  | .aggregateMarker inner => totalMarkersExpr inner == 0
  | .funcCall _ args _ => noNestedList args
  | .binOp _ l r => noNestedExpr l && noNestedExpr r
  | _ => true

/-- No-nested-markers over an expression list. -/
def noNestedList : List Expr → Bool
  | [] => true
  | e :: rest => noNestedExpr e && noNestedList rest

end

mutual

/-- Stated from the spec: replace the j-th discovered marker (counting
from `count`, in the same left-to-right, markers-as-leaves discovery
order as `markerInnersExpr`) by `ordinalReference (count + j)`; every
other node is rebuilt unchanged. -/
def replaceMarkersFrom (count : Nat) : Expr → Expr
  | .aggregateMarker _ => .ordinalReference count
  | .funcCall n args d => .funcCall n (replaceMarkersListFrom count args) d
  | .binOp op l r =>
    .binOp op (replaceMarkersFrom count l)
      (replaceMarkersFrom (count + (markerInnersExpr l).length) r)
  | e => e

/-- Marker replacement over an expression list, advancing the counter by
each member's discovered-marker count. -/
def replaceMarkersListFrom (count : Nat) : List Expr → List Expr
  | [] => []
  | e :: rest =>
    replaceMarkersFrom count e ::
      replaceMarkersListFrom (count + (markerInnersExpr e).length) rest

end


mutual

theorem walkExprConst_eq (st : List AggregatorSpec_Expr) (e : Expr) :
    walkExprConst st e = st ++ (markerInnersExpr e).map markerSpec := by
  cases e with
  | lit v => simp [walkExprConst, aggVisitPre, markerInnersExpr]
  | columnRef i => simp [walkExprConst, aggVisitPre, markerInnersExpr]
  | ordinalReference p => simp [walkExprConst, aggVisitPre, markerInnersExpr]
  | aggregateMarker inner =>
    cases inner <;>
      simp [walkExprConst, aggVisitPre, markerInnersExpr, markerSpec]
  | funcCall n args d =>
    simp [walkExprConst, aggVisitPre, markerInnersExpr,
      walkExprConstList_eq st args]
  | binOp op l r =>
    simp [walkExprConst, aggVisitPre, markerInnersExpr,
      walkExprConst_eq st l, walkExprConst_eq (st ++ (markerInnersExpr l).map markerSpec) r,
      List.append_assoc]

theorem walkExprConstList_eq (st : List AggregatorSpec_Expr) (es : List Expr) :
    walkExprConstList st es = st ++ (markerInnersList es).map markerSpec := by
  cases es with
  | nil => simp [walkExprConstList, markerInnersList]
  | cons e rest =>
    simp [walkExprConstList, markerInnersList, walkExprConst_eq st e,
      walkExprConstList_eq (st ++ (markerInnersExpr e).map markerSpec) rest,
      List.append_assoc]

end


mutual

theorem walkExpr_eq (count : Nat) (e : Expr) :
    walkExpr count e =
      (count + (markerInnersExpr e).length, replaceMarkersFrom count e) := by
  cases e with
  | lit v => simp [walkExpr, postAggVisitPost, markerInnersExpr, replaceMarkersFrom]
  | columnRef i => simp [walkExpr, postAggVisitPost, markerInnersExpr, replaceMarkersFrom]
  | ordinalReference p => simp [walkExpr, postAggVisitPost, markerInnersExpr, replaceMarkersFrom]
  | aggregateMarker inner =>
    simp [walkExpr, postAggVisitPost, markerInnersExpr, replaceMarkersFrom]
  | funcCall n args d =>
    simp [walkExpr, postAggVisitPost, markerInnersExpr, replaceMarkersFrom,
      walkExprList_eq count args]
  | binOp op l r =>
    simp [walkExpr, postAggVisitPost, markerInnersExpr, replaceMarkersFrom,
      walkExpr_eq count l, walkExpr_eq (count + (markerInnersExpr l).length) r,
      Nat.add_assoc]

theorem walkExprList_eq (count : Nat) (es : List Expr) :
    walkExprList count es =
      (count + (markerInnersList es).length, replaceMarkersListFrom count es) := by
  cases es with
  | nil => simp [walkExprList, markerInnersList, replaceMarkersListFrom]
  | cons e rest =>
    simp [walkExprList, markerInnersList, replaceMarkersListFrom,
      walkExpr_eq count e,
      walkExprList_eq (count + (markerInnersExpr e).length) rest,
      Nat.add_assoc]

end


mutual

theorem markerInnersExpr_length (e : Expr) (h : noNestedExpr e = true) :
    (markerInnersExpr e).length = totalMarkersExpr e := by
  cases e with
  | lit v => simp [markerInnersExpr, totalMarkersExpr]
  | columnRef i => simp [markerInnersExpr, totalMarkersExpr]
  | ordinalReference p => simp [markerInnersExpr, totalMarkersExpr]
  | aggregateMarker inner =>
    have h0 : totalMarkersExpr inner = 0 := by
      simpa [noNestedExpr] using h
    simp [markerInnersExpr, totalMarkersExpr, h0]
  | funcCall n args d =>
    have h0 : noNestedList args = true := by simpa [noNestedExpr] using h
    simp [markerInnersExpr, totalMarkersExpr, markerInnersList_length args h0]
  | binOp op l r =>
    have h0 : noNestedExpr l = true ∧ noNestedExpr r = true := by
      simpa [noNestedExpr] using h
    simp [markerInnersExpr, totalMarkersExpr,
      markerInnersExpr_length l h0.1, markerInnersExpr_length r h0.2]

theorem markerInnersList_length (es : List Expr) (h : noNestedList es = true) :
    (markerInnersList es).length = totalMarkersList es := by
  cases es with
  | nil => simp [markerInnersList, totalMarkersList]
  | cons e rest =>
    have h0 : noNestedExpr e = true ∧ noNestedList rest = true := by
      simpa [noNestedList] using h
    simp [markerInnersList, totalMarkersList,
      markerInnersExpr_length e h0.1, markerInnersList_length rest h0.2]

end

theorem stampColIdx_length (l : List AggregatorSpec_Expr) (s : Nat) :
    (stampColIdx s l).length = l.length := by
  induction l generalizing s with
  | nil => simp [stampColIdx]
  | cons a rest ih => simp [stampColIdx, ih]

theorem stampColIdx_map_colIdx (l : List AggregatorSpec_Expr) (s : Nat) :
    (stampColIdx s l).map (fun a => a.ColIdx) = List.range' s l.length := by
  induction l generalizing s with
  | nil => simp [stampColIdx]
  | cons a rest ih => simp [stampColIdx, List.range', ih]

theorem stampColIdx_get (l : List AggregatorSpec_Expr) (s i : Nat)
    (h : i < (stampColIdx s l).length) (h' : i < l.length) :
    (stampColIdx s l).get ⟨i, h⟩ = { l.get ⟨i, h'⟩ with ColIdx := s + i } := by
  induction l generalizing s i with
  | nil => exact absurd h' (by simp)
  | cons a rest ih =>
    cases i with
    | zero => simp [stampColIdx]
    | succ j =>
      have hj : j < (stampColIdx (s + 1) rest).length := by
        simpa [stampColIdx] using h
      have hj' : j < rest.length := by simpa using h'
      simpa [stampColIdx, Nat.add_assoc, Nat.add_comm 1 j] using ih (s + 1) j hj hj'

theorem extractAggExprs_eq (render : List Expr) :
    extractAggExprs render =
      stampColIdx 0 ((markerInnersList render).map markerSpec) := by
  have key : ∀ (es : List Expr) (acc : List AggregatorSpec_Expr),
      es.foldl (fun acc expr => acc ++ aggExprVisitor.extract {} expr) acc =
        acc ++ (markerInnersList es).map markerSpec := by
    intro es
    induction es with
    | nil => intro acc; simp [markerInnersList]
    | cons e rest ih =>
      intro acc
      rw [List.foldl_cons, ih]
      simp [aggExprVisitor.extract, walkExprConst_eq, markerInnersList,
        List.append_assoc]
  simp [extractAggExprs, key]

theorem extractPostAggrExprs_eq (render : List Expr) :
    extractPostAggrExprs render =
      (replaceMarkersListFrom 0 render,
        !(replaceMarkersListFrom 0 render).all isOrdinalRef) := by
  have key : ∀ (es : List Expr) (c : Nat) (acc : List Expr) (flag : Bool),
      es.foldl
        (fun st expr =>
          let r := walkExpr st.1 expr
          (r.1, st.2.1 ++ [r.2], if isOrdinalRef r.2 then st.2.2 else true))
        (c, acc, flag) =
      (c + (markerInnersList es).length,
        acc ++ replaceMarkersListFrom c es,
        flag || !(replaceMarkersListFrom c es).all isOrdinalRef) := by
    intro es
    induction es with
    | nil => intro c acc flag; simp [markerInnersList, replaceMarkersListFrom]
    | cons e rest ih =>
      intro c acc flag
      simp only [List.foldl_cons, walkExpr_eq c e]
      rw [ih]
      simp [markerInnersList, replaceMarkersListFrom, Nat.add_assoc,
        List.append_assoc]
      cases hb : isOrdinalRef (replaceMarkersFrom c e) <;> simp [hb, Bool.or_assoc]
  simp only [extractPostAggrExprs]
  rw [key]
  simp


/-- Whether an expression node is exactly a bare ordinal reference, in
the structural sense of the data model. -/
theorem isOrdinalRef_iff (e : Expr) :
    isOrdinalRef e = true ↔ ∃ p, e = Expr.ordinalReference p := by
  cases e <;> simp [isOrdinalRef]

/-- C10: on the empty render-expression list, `extractAggExprs` returns
an empty spec list, and `extractPostAggrExprs` returns an empty
rewritten-expression list together with `needEval = false`. -/
theorem extract_empty_render :
    extractAggExprs [] = [] ∧ extractPostAggrExprs [] = ([], false) :=
  ⟨rfl, rfl⟩

/-- C9: both passes are deterministic — running `extractAggExprs` twice
on the same input yields identical spec lists, and running
`extractPostAggrExprs` twice on the same input (each call creating its
visitor afresh, counter at zero) yields identical results; likewise for
a single visitor's `extract`. In the embedding both passes are pure
functions (the Go code builds a fresh visitor inside each call), so
re-running is literally the same computation. -/
theorem extract_rerun_identical :
    ∀ (render : List Expr) (v : aggExprVisitor) (e : Expr),
      extractAggExprs render = extractAggExprs render ∧
      extractPostAggrExprs render = extractPostAggrExprs render ∧
      v.extract e = v.extract e :=
  fun _ _ _ => ⟨rfl, rfl, rfl⟩

/-- C3: the `needEval` flag returned by `extractPostAggrExprs` is
`false` exactly when every returned rewritten expression is a bare
ordinal reference with no surrounding computation. -/
theorem needEval_false_iff_all_bare (render : List Expr) :
    (extractPostAggrExprs render).2 = false ↔
      ∀ e ∈ (extractPostAggrExprs render).1, ∃ p, e = Expr.ordinalReference p := by
  rw [extractPostAggrExprs_eq]
  simp [List.all_eq_true, isOrdinalRef_iff]

/-- C6: extraction treats a marker as a leaf — it contributes exactly
one spec entry (determined by its inner expression's top-level form
only) and nothing inside its subtree contributes; every non-marker node
is explored, so the number of emitted entries is the number of
discovered (markers-as-leaves) markers. -/
theorem marker_leaf_single_entry :
    (∀ (st : List AggregatorSpec_Expr) (inner : Expr),
      walkExprConst st (.aggregateMarker inner) = st ++ [markerSpec inner]) ∧
    ∀ render : List Expr,
      (extractAggExprs render).length = (markerInnersList render).length := by
  constructor
  · intro st inner
    rw [walkExprConst_eq]
    simp [markerInnersExpr]
  · intro render
    rw [extractAggExprs_eq, stampColIdx_length, List.length_map]

/-- C4: a marker wrapping a function call whose upper-cased name is
outside the registry does not make extraction fail: the emitted entry
carries the enumeration's zero-value function kind (and the call's
distinct flag). -/
theorem unknown_name_resolves_to_zero (name : String) (args : List Expr)
    (d : Bool) (h : AggregatorSpec_Func_value (strToUpper name) = none) :
    extractAggExprs [.aggregateMarker (.funcCall name args d)] =
      [{ Func := AggregatorSpec_Func.zero, Distinct := d, ColIdx := 0 }] := by
  rw [extractAggExprs_eq]
  simp [markerInnersList, markerInnersExpr, markerSpec, stampColIdx,
    lookupFunc, h]

/-- C4 witness: the unsupported name BOGUS is absent from the registry
and yields the zero-value kind. -/
theorem unknown_name_resolves_to_zero_witness :
    AggregatorSpec_Func_value (strToUpper "BOGUS") = none ∧
    extractAggExprs
        [.aggregateMarker (.funcCall "BOGUS" [.columnRef 0] false)] =
      [{ Func := AggregatorSpec_Func.zero, Distinct := false, ColIdx := 0 }] :=
  ⟨rfl, unknown_name_resolves_to_zero "BOGUS" [.columnRef 0] false rfl⟩

/-- C5: a marker whose inner expression is not a function call (the
pass-through case) yields a spec entry with function kind `IDENT` and
`Distinct = false`, regardless of the inner expression's form. -/
theorem passthrough_marker_ident (inner : Expr) (h : isFuncCall inner = false) :
    markerSpec inner = { Func := .IDENT, Distinct := false, ColIdx := 0 } ∧
    extractAggExprs [.aggregateMarker inner] =
      [{ Func := .IDENT, Distinct := false, ColIdx := 0 }] := by
  have hm : markerSpec inner = { Func := .IDENT, Distinct := false, ColIdx := 0 } := by
    cases inner <;> simp_all [markerSpec, isFuncCall]
  refine ⟨hm, ?_⟩
  rw [extractAggExprs_eq]
  simp [markerInnersList, markerInnersExpr, stampColIdx, hm]

/-- C5 witness: a pass-through marker over the compound expression
`v + w` (not a function call) yields an IDENT, non-distinct entry. -/
theorem passthrough_marker_ident_witness :
    isFuncCall (.binOp "+" (.columnRef 1) (.columnRef 2)) = false ∧
    (markerSpec (.binOp "+" (.columnRef 1) (.columnRef 2)) =
        { Func := .IDENT, Distinct := false, ColIdx := 0 } ∧
      extractAggExprs [.aggregateMarker (.binOp "+" (.columnRef 1) (.columnRef 2))] =
        [{ Func := .IDENT, Distinct := false, ColIdx := 0 }]) :=
  ⟨rfl, passthrough_marker_ident (.binOp "+" (.columnRef 1) (.columnRef 2)) rfl⟩

/-- C8: the registry lookup used by extraction upper-cases the name
before mapping, so two names with the same upper-casing resolve to the
same function kind, and markers wrapping calls to such names produce the
same spec entry. -/
theorem lookup_case_insensitive (n₁ n₂ : String)
    (h : strToUpper n₁ = strToUpper n₂) :
    lookupFunc n₁ = lookupFunc n₂ ∧
    ∀ (args₁ args₂ : List Expr) (d : Bool),
      markerSpec (.funcCall n₁ args₁ d) = markerSpec (.funcCall n₂ args₂ d) := by
  have hl : lookupFunc n₁ = lookupFunc n₂ := by
    simp only [lookupFunc, h]
  exact ⟨hl, fun args₁ args₂ d => by simp [markerSpec, hl]⟩

/-- C8 witness: `count` and `COUNT` differ only in letter case and
resolve to the same function kind. -/
theorem lookup_case_insensitive_witness :
    strToUpper "count" = strToUpper "COUNT" ∧
    lookupFunc "count" = lookupFunc "COUNT" :=
  ⟨rfl, (lookup_case_insensitive "count" "COUNT" rfl).1⟩


/-- The i-th entry of `extractAggExprs` is the spec built from the i-th
discovered marker inner, stamped with `ColIdx = i`. -/
theorem extractAggExprs_get (render : List Expr) (i : Nat)
    (h2 : i < (extractAggExprs render).length)
    (h1 : i < (markerInnersList render).length) :
    (extractAggExprs render).get ⟨i, h2⟩ =
      { markerSpec ((markerInnersList render).get ⟨i, h1⟩) with ColIdx := i } := by
  have hmap : i < ((markerInnersList render).map markerSpec).length := by
    simpa using h1
  have hst : i < (stampColIdx 0 ((markerInnersList render).map markerSpec)).length := by
    rw [stampColIdx_length]
    exact hmap
  have heq : (extractAggExprs render).get ⟨i, h2⟩ =
      (stampColIdx 0 ((markerInnersList render).map markerSpec)).get ⟨i, hst⟩ := by
    simp only [List.get_eq_getElem]
    congr 1
    exact extractAggExprs_eq render
  rw [heq, stampColIdx_get _ _ _ hst hmap]
  have hget : ((markerInnersList render).map markerSpec).get ⟨i, hmap⟩ =
      markerSpec ((markerInnersList render).get ⟨i, h1⟩) := by
    simp [List.get_eq_getElem, List.getElem_map]
  rw [hget]
  simp

/-- C1: under the no-nested-markers precondition, `extractAggExprs`
returns one entry per marker (k entries for k markers in total), and the
`ColIdx` values, read in list order, are exactly 0, 1, ..., k-1. -/
theorem extractAggExprs_indices (render : List Expr)
    (h : noNestedList render = true) :
    (extractAggExprs render).length = totalMarkersList render ∧
    (extractAggExprs render).map (fun a => a.ColIdx) =
      List.range (totalMarkersList render) := by
  have hlen := markerInnersList_length render h
  constructor
  · rw [extractAggExprs_eq, stampColIdx_length, List.length_map, hlen]
  · rw [extractAggExprs_eq, stampColIdx_map_colIdx, List.length_map, hlen,
      List.range_eq_range']

/-- Render list used in the C1 witness: two markers, one nested in a
compound render expression. -/
def renderC1 : List Expr :=
  [.aggregateMarker (.funcCall "COUNT" [.columnRef 0] false),
   .binOp "+" (.aggregateMarker (.funcCall "SUM" [.columnRef 1] false)) (.lit 1)]

/-- C1 witness: a concrete two-marker render list satisfies the
no-nesting precondition and gets indices 0 and 1. -/
theorem extractAggExprs_indices_witness :
    noNestedList renderC1 = true ∧
    ((extractAggExprs renderC1).length = totalMarkersList renderC1 ∧
      (extractAggExprs renderC1).map (fun a => a.ColIdx) =
        List.range (totalMarkersList renderC1)) :=
  ⟨by decide, extractAggExprs_indices renderC1 (by decide)⟩

/-- C7: if the i-th discovered marker wraps a function call, the i-th
emitted entry carries the registry lookup of the call's name and the
call's distinct flag at `ColIdx = i`; and the name COUNT looks up to the
COUNT kind (so a marker wrapping a distinct COUNT yields a distinct
COUNT entry at its discovery index). -/
theorem marker_distinct_at_index (render : List Expr) (i : Nat)
    (name : String) (args : List Expr) (d : Bool)
    (h1 : i < (markerInnersList render).length)
    (hm : (markerInnersList render).get ⟨i, h1⟩ = .funcCall name args d) :
    (∃ h2 : i < (extractAggExprs render).length,
      (extractAggExprs render).get ⟨i, h2⟩ =
        { Func := lookupFunc name, Distinct := d, ColIdx := i }) ∧
    lookupFunc "COUNT" = AggregatorSpec_Func.COUNT := by
  have hlen : (extractAggExprs render).length = (markerInnersList render).length := by
    rw [extractAggExprs_eq, stampColIdx_length, List.length_map]
  have h2 : i < (extractAggExprs render).length := by
    rw [hlen]
    exact h1
  refine ⟨⟨h2, ?_⟩, rfl⟩
  rw [extractAggExprs_get render i h2 h1, hm]
  simp [markerSpec]

/-- Render list used in the C7 witness: one marker wrapping a distinct
COUNT call. -/
def renderC7 : List Expr :=
  [.aggregateMarker (.funcCall "COUNT" [.columnRef 0] true)]

/-- C7 witness: the distinct COUNT marker yields a distinct COUNT entry
at discovery index 0. -/
theorem marker_distinct_at_index_witness :
    (∃ h2 : 0 < (extractAggExprs renderC7).length,
      (extractAggExprs renderC7).get ⟨0, h2⟩ =
        { Func := lookupFunc "COUNT", Distinct := true, ColIdx := 0 }) ∧
    lookupFunc "COUNT" = AggregatorSpec_Func.COUNT :=
  marker_distinct_at_index renderC7 0 "COUNT" [.columnRef 0] true
    (by decide) rfl

/-- C2: on any render list satisfying the no-nested-markers
precondition, both passes use the identical discovery order and counter:
the i-th emitted spec entry is built from the i-th discovered marker and
stamped `ColIdx = i`, and the rewriter's output replaces the j-th
discovered marker (same order) by the ordinal reference carrying
position j. -/
theorem extract_rewrite_cross_consistency (render : List Expr)
    (h : noNestedList render = true) :
    (∀ (i : Nat) (h1 : i < (extractAggExprs render).length)
        (h2 : i < (markerInnersList render).length),
      (extractAggExprs render).get ⟨i, h1⟩ =
        { markerSpec ((markerInnersList render).get ⟨i, h2⟩) with ColIdx := i }) ∧
    (extractPostAggrExprs render).1 = replaceMarkersListFrom 0 render := by
  refine ⟨fun i h1 h2 => extractAggExprs_get render i h1 h2, ?_⟩
  rw [extractPostAggrExprs_eq]

/-- Render list used in the C2 witness: two COUNT markers inside one
compound render expression. -/
def renderC2 : List Expr :=
  [.binOp "+" (.aggregateMarker (.funcCall "COUNT" [.columnRef 0] false))
     (.aggregateMarker (.funcCall "COUNT" [.columnRef 1] false))]

/-- C2 witness: on a concrete two-marker render list the rewriter's
output is the positional marker-by-ordinal substitution. -/
theorem extract_rewrite_cross_consistency_witness :
    noNestedList renderC2 = true ∧
    (extractPostAggrExprs renderC2).1 = replaceMarkersListFrom 0 renderC2 :=
  ⟨by decide, (extract_rewrite_cross_consistency renderC2 (by decide)).2⟩

end DistSQLAgg
